import Mathlib

/-!
Verification of the `Transreal` numeric type from `transmaths.py`.

A transreal number is stored as a `numerator`/`denominator` pair of
(unbounded) integers together with an `approximate` provenance flag.
All definitions below are shallow embeddings of the corresponding Python
methods of the class `Transreal`; Python's arbitrary-precision `int` is
modelled by `Int`, Python's floor division `//` by `Int.fdiv`, and
`math.gcd` (which returns the non-negative gcd of the absolute values)
by `Int.gcd`.
-/

/-- The `Transreal` object: fields `numerator`, `denominator`,
`approximate`, exactly as stored by `Transreal.__init__`. -/
structure Transreal where
  numerator : Int
  denominator : Int
  approximate : Bool
deriving DecidableEq, Repr

/-- Exponentiation of an integer by a natural number, `b ** e` on Python
ints (only ever used with non-negative exponents in the source). -/
def ipow (b : Int) : Nat → Int
  | 0 => 1
  | n + 1 => ipow b n * b

/-- The constructor `Transreal.__init__` restricted to two integer arguments (the branch
of the constructor starting at the sign-normalization step): negate both
fields when the denominator is negative, divide both by their gcd when
that gcd exceeds 1, and clear `approximate` when the final denominator
is 0. -/
def make (numerator denominator : Int) (approximate : Bool) : Transreal :=
  let n := if denominator < 0 then numerator * (-1) else numerator
  let d := if denominator < 0 then denominator * (-1) else denominator
  let g : Int := (Int.gcd n d : Int)
  let n2 := if 1 < g then n.fdiv g else n
  let d2 := if 1 < g then d.fdiv g else d
  ⟨n2, d2, if d2 = 0 then false else approximate⟩

/-- The module constant `INFINITY = Transreal(1, 0)`. -/
def INFINITY : Transreal := make 1 0 false

/-- The module constant `NULLITY = Transreal(0, 0)`. -/
def NULLITY : Transreal := make 0 0 false

/-- The module constant `PI` (an approximate value). -/
def piT : Transreal := make 3141592653589793238462643 (ipow 10 24) true

/-- The value `Transreal(0)`. -/
def zeroT : Transreal := make 0 1 false

/-- The value `Transreal(1)`. -/
def oneT : Transreal := make 1 1 false

/-- The value `Transreal(-1)`. -/
def negOneT : Transreal := make (-1) 1 false

/-- Method `Transreal.__eq__` between two transreal values: structural equality
of numerator and denominator; the `approximate` flag is ignored. -/
def eqV (a b : Transreal) : Bool :=
  a.numerator == b.numerator && a.denominator == b.denominator

/-- Method `Transreal.__lt__` between two transreal values: false when either
operand is nullity, numerator comparison for equal denominators,
cross-multiplication otherwise. -/
def ltV (a b : Transreal) : Bool :=
  if eqV a NULLITY || eqV b NULLITY then false
  else if a.denominator == b.denominator then
    decide (a.numerator < b.numerator)
  else
    decide (a.numerator * b.denominator < b.numerator * a.denominator)

/-- Method `Transreal.__gt__` between two transreal values. -/
def gtV (a b : Transreal) : Bool :=
  if eqV a NULLITY || eqV b NULLITY then false
  else if a.denominator == b.denominator then
    decide (a.numerator > b.numerator)
  else
    decide (a.numerator * b.denominator > b.numerator * a.denominator)

/-- Method `Transreal.__mul__` between two transreal values. -/
def mulV (a b : Transreal) : Transreal :=
  make (a.numerator * b.numerator) (a.denominator * b.denominator)
    (a.approximate || b.approximate)

/-- Method `Transreal.__neg__`: `self * -1`. -/
def negV (a : Transreal) : Transreal := mulV a negOneT

/-- Method `Transreal.__abs__`. -/
def absV (a : Transreal) : Transreal :=
  if a.numerator < 0 then negV a else a

/-- Method `Transreal.__add__` between two transreal values: nullity absorbs,
same-denominator fast path, cross-multiplication otherwise. -/
def addV (a b : Transreal) : Transreal :=
  if eqV a NULLITY || eqV b NULLITY then NULLITY
  else if a.denominator == b.denominator then
    make (a.numerator + b.numerator) a.denominator
      (a.approximate || b.approximate)
  else
    make (a.numerator * b.denominator + b.numerator * a.denominator)
      (a.denominator * b.denominator) (a.approximate || b.approximate)

/-- Method `Transreal.__sub__`: `self + (other * -1)`. -/
def subV (a b : Transreal) : Transreal := addV a (mulV b negOneT)

/-- Method `Transreal.floor`: identity for denominators 0 and 1, floor division
of numerator by denominator otherwise. -/
def floorV (a : Transreal) : Transreal :=
  if a.denominator == 0 || a.denominator == 1 then a
  else make (a.numerator.fdiv a.denominator) 1 a.approximate

/-- Method `Transreal.sign`. -/
def signV (a : Transreal) : Transreal :=
  if gtV a zeroT then make 1 1 false
  else if eqV a zeroT then make 0 1 false
  else if ltV a zeroT then make (-1) 1 false
  else NULLITY

/-- Method `Transreal.__str__`. -/
def strV (x : Transreal) : String :=
  (if x.approximate then "~" else "") ++
  (if x.denominator = 1 then toString x.numerator
   else if x.denominator = 0 then
     (if x.numerator < 0 then "-infinity"
      else if x.numerator > 0 then "infinity"
      else "nullity")
   else toString x.numerator ++ "/" ++ toString x.denominator)

/-- The mutually recursive computations of the source: `__pow__`,
`root`, the Newton `while` loop of `root` (`loopG` returns the final
guess when the loop exits, `loop` performs the whole tail of `root`
after the special cases), `__truediv__` (which calls `__pow__` with
power -1) and `round` (which calls `__truediv__`).  They are bundled
into one call type so that the whole recursion is structural in an
explicit fuel parameter; `none` means the fuel ran out, so that actual
divergence of the Python code corresponds to `none` for every fuel. -/
inductive Call where
  | pow (self power : Transreal)
  | root (self power : Transreal)
  | loopG (self power prev guess : Transreal)
  | loop (self power prev guess : Transreal)
  | truediv (a b : Transreal)
  | round (x : Transreal) (k : Nat)

/-- One-step interpreter for `Call` with fuel; a faithful transcription
of `Transreal.__pow__` (without the optional modulo argument, which no
internal call supplies), `Transreal.root`, `Transreal.__truediv__` and
`Transreal.round`.  Python returns the plain ints `0` and `1` in two
branches of `__pow__`; they are modelled by the transreal values
`zeroT`/`oneT` that every subsequent operation coerces them to.  The
direct field mutation `result.approximate = True` at the end of `root`
is modelled by a record update (it bypasses the normalizing
constructor). -/
def evalF : Nat → Call → Option Transreal
  | 0, _ => none
  | f + 1, c =>
    match c with
    | .pow self power =>
      -- if the power is negative, invert the fraction, make the power positive
      let self' := if ltV power zeroT then
          make self.denominator self.numerator self.approximate else self
      let power' := if ltV power zeroT then mulV power negOneT else power
      if eqV power' zeroT then
        some (if eqV self' zeroT || eqV self' NULLITY then NULLITY else oneT)
      else if ltV power' oneT then do
        let b ← evalF f (.pow self' (make power'.numerator 1 false))
        evalF f (.root b (make power'.denominator 1 false))
      else if eqV power' oneT then some self'
      else if eqV power' NULLITY then some NULLITY
      else if eqV power' INFINITY then
        some (if ltV (absV self') oneT then zeroT
              else if eqV (absV self') oneT then NULLITY
              else INFINITY)
      else if power'.denominator = 1 then
        some (make (ipow self'.numerator power'.numerator.toNat)
          (ipow self'.denominator power'.numerator.toNat)
          (self'.approximate || power'.approximate))
      else do
        let whole := power'.numerator.fdiv power'.denominator
        let frac := power'.numerator.fmod power'.denominator
        let fracT := make frac power'.denominator power'.approximate
        let x ← evalF f (.pow self' (make whole 1 false))
        let y ← evalF f (.pow self' fracT)
        some (mulV x y)
    | .root self power =>
      if ltV self zeroT then some NULLITY
      else if eqV self NULLITY || eqV power NULLITY then some NULLITY
      else if eqV self INFINITY then
        some (if eqV (absV power) INFINITY then NULLITY
              else if ltV power zeroT then negV INFINITY
              else INFINITY)
      else if eqV (absV power) INFINITY then some zeroT
      else evalF f (.loop self power (make 0 1 false) (make 1 1 false))
    | .loopG self power prev guess =>
      if ltV (make 1 (ipow 10 9) false) (absV (subV guess prev)) then do
        let prev' ← evalF f (.round guess 18)
        let pp ← evalF f (.pow prev' power)
        let pm ← evalF f (.pow prev' (subV power oneT))
        let q ← evalF f (.truediv (subV pp self) (mulV power pm))
        evalF f (.loopG self power prev' (subV prev' q))
      else some guess
    | .loop self power prev guess => do
      let gF ← evalF f (.loopG self power prev guess)
      let result ← evalF f (.round gF 9)
      let rp ← evalF f (.pow result power)
      if eqV rp self then some result
      else some { result with approximate := true }
    | .truediv a b => do
      let r ← evalF f (.pow b negOneT)
      some (mulV a r)
    | .round x k => do
      evalF f (.truediv (floorV (mulV x (make (ipow 10 k) 1 false)))
        (make (ipow 10 k) 1 false))

/-- Method `Transreal.__pow__` with fuel. -/
def powF (f : Nat) (self power : Transreal) : Option Transreal :=
  evalF f (.pow self power)

/-- Method `Transreal.root` with fuel. -/
def rootF (f : Nat) (self power : Transreal) : Option Transreal :=
  evalF f (.root self power)

/-- Method `Transreal.__truediv__` with fuel. -/
def truedivF (f : Nat) (a b : Transreal) : Option Transreal :=
  evalF f (.truediv a b)

/-- Proposition that `Transreal.root` terminates on the given operands: some amount of
fuel suffices for the interpreter to produce a result. -/
def rootTerminates (self power : Transreal) : Prop :=
  ∃ f, (evalF f (.root self power)).isSome

/-- The closed form of `b ** -1` as computed by the negative-exponent
branch of `__pow__`: invert the stored fraction through the normalizing
constructor. -/
def recipV (b : Transreal) : Transreal :=
  make b.denominator b.numerator b.approximate

/-- Canonical form: the image of the normalizing constructor.  The
denominator is never negative; numerator and denominator are coprime
when the denominator is positive; when the denominator is 0 the
numerator is clamped to -1, 0 or 1. -/
def Canonical (a : Transreal) : Prop :=
  0 ≤ a.denominator ∧
  (0 < a.denominator → Int.gcd a.numerator a.denominator = 1) ∧
  (a.denominator = 0 → a.numerator = -1 ∨ a.numerator = 0 ∨ a.numerator = 1)

instance (a : Transreal) : Decidable (Canonical a) := by
  unfold Canonical; infer_instance

/-! ### The dynamically typed constructor (`__init__` over Python values) -/

/-- The value of `a / b` (`Transreal.__truediv__` between two transreal
values): `self * (other ** -1)`, the power being the negative-exponent
branch of `__pow__`. -/
def truedivV (a b : Transreal) : Transreal := mulV a (recipV b)

/-- A Python float as seen by the constructor: a finite float carries
the exact integer ratio returned by `float.as_integer_ratio`; the two
infinities make `as_integer_ratio` raise `OverflowError` (caught by the
constructor); NaN makes it raise `ValueError` (not caught). -/
inductive PyFloat where
  | fin (n d : Int)
  | inf
  | ninf
  | nan
deriving DecidableEq, Repr

/-- A Python value passed to the constructor: an int, a float, an
existing Transreal, or a non-numeric object such as a string. -/
inductive PyVal where
  | vint (i : Int)
  | vfloat (x : PyFloat)
  | vtr (t : Transreal)
  | vstr
deriving DecidableEq, Repr

/-- The kinds of exception the constructor can raise.  `typeError` is
the spec's `InvalidOperand`. -/
inductive PyError where
  | typeError
  | valueError
  | attributeError
deriving DecidableEq, Repr

/-- Single-argument coercion `Transreal(x)`: `__init__(x, 1, False)`. -/
def coerceV : PyVal → Except PyError Transreal
  | .vint i => .ok (make i 1 false)
  | .vfloat (.fin n d) => .ok ⟨n, d, false⟩
  | .vfloat .inf => .ok ⟨1, 0, false⟩
  | .vfloat .ninf => .ok ⟨-1, 0, false⟩
  | .vfloat .nan => .error .valueError
  | .vtr t => .ok t
  | .vstr => .error .typeError

/-- Python's `denominator == 1` test on an arbitrary constructor
argument (never raises): ints and floats compare by value, transreal
values through `Transreal.__eq__`, anything else is unequal. -/
def pyEqOne : PyVal → Bool
  | .vint i => i == 1
  | .vfloat (.fin n d) => n == 1 && d == 1
  | .vfloat _ => false
  | .vtr t => eqV t oneT
  | .vstr => false

/-- The expression `numerator / denominator` evaluated by the
constructor when at least one operand is a transreal value, following
Python's operator dispatch: the transreal `__truediv__`/`__rtruediv__`
coerces the other operand; a `TypeError` in the coercion is caught and
surfaces as the final "unsupported operand" `TypeError`, while a
`ValueError` (NaN) propagates. -/
def pydivV (num den : PyVal) : Except PyError Transreal :=
  match num with
  | .vtr t =>
    match coerceV den with
    | .ok d => .ok (truedivV t d)
    | .error e => .error e
  | _ =>
    match den with
    | .vtr t =>
      match coerceV num with
      | .ok n => .ok (truedivV n t)
      | .error e => .error e
    | _ => .error .typeError

/-- The test `isinstance(x, Transreal)`. -/
def isTrB : PyVal → Bool
  | .vtr _ => true
  | _ => false

/-- The constructor `Transreal.__init__(numerator, denominator, approximate)` over
Python values.  Mirrors the source line by line: the transreal branch
(copy fields verbatim when `denominator == 1` — which reads the three
fields off the numerator and so raises `AttributeError` when the
numerator is not itself transreal — else divide and adopt the result's
fields, exact when the quotient is infinite or nullity); then the
integer-denominator check (`TypeError`); then the float-numerator
decomposition (`ValueError` for NaN, `(±1, 0)` for the infinities);
then the integer normalization. -/
def initF (num den : PyVal) (ap : Bool) : Except PyError Transreal :=
  if isTrB num || isTrB den then
    if pyEqOne den then
      match num with
      | .vtr u => .ok ⟨u.numerator, u.denominator, u.approximate⟩
      | _ => .error .attributeError
    else
      match pydivV num den with
      | .error e => .error e
      | .ok r => .ok ⟨r.numerator, r.denominator,
          if eqV (absV r) INFINITY || eqV r NULLITY then false
          else r.approximate⟩
  else
    match den with
    | .vint dd =>
      match num with
      | .vint nn => .ok (make nn dd ap)
      | .vfloat (.fin n d) => .ok ⟨n, d, false⟩
      | .vfloat .inf => .ok ⟨1, 0, false⟩
      | .vfloat .ninf => .ok ⟨-1, 0, false⟩
      | .vfloat .nan => .error .valueError
      | _ => .error .typeError
    | _ => .error .typeError

/-- Whether a constructor call returned a value. -/
def isOkB : Except PyError Transreal → Bool
  | .ok _ => true
  | .error _ => false

/-! ### Object identity: mutation analysis of `root` -/

/-- A Python object reference: a transreal value together with the
object's identity.  The only field assignment in the whole class
outside `__init__` is `result.approximate = True` inside `root`, so
object identity only needs to be tracked along `root`'s result. -/
structure TObj where
  val : Transreal
  id : Nat
deriving DecidableEq, Repr

/-- Method `__pos__` "yields its numeric argument unchanged": the result is
the very operand object, not a newly constructed one. -/
def posT (x : TObj) : TObj := x

/-- Identity-tracking `round`: the value is the interpreter's `round`;
the result object is the one allocated by the final constructor call
inside `__mul__` (reached through `__truediv__`), hence always fresh:
its identity is the current allocation counter.  (Intermediate
allocations are not individually counted; only freshness of the result
relative to the counter matters, and the counter stays an upper bound
on every live identity.) -/
def roundT (f : Nat) (x : Transreal) (k c : Nat) : Option (TObj × Nat) :=
  (evalF f (.round x k)).map (fun v => (⟨v, c⟩, c + 1))

/-- Identity-tracking `root`, following `Transreal.root` line by line;
the returned list collects the identities of the objects whose fields
the call mutates (`result.approximate = True` is the only candidate). -/
def rootT (f : Nat) (s p : TObj) (c : Nat) :
    Option (Transreal × List Nat × Nat) :=
  if ltV s.val zeroT then some (NULLITY, [], c)
  else if eqV s.val NULLITY || eqV p.val NULLITY then some (NULLITY, [], c)
  else if eqV s.val INFINITY then
    some ((if eqV (absV p.val) INFINITY then NULLITY
           else if ltV p.val zeroT then negV INFINITY
           else INFINITY), [], c)
  else if eqV (absV p.val) INFINITY then some (zeroT, [], c)
  else
    match evalF f (.loopG s.val p.val (make 0 1 false) (make 1 1 false)) with
    | none => none
    | some gF =>
      match roundT f gF 9 c with
      | none => none
      | some (result, c1) =>
        match evalF f (.pow result.val p.val) with
        | none => none
        | some rp =>
          if eqV rp s.val then some (result.val, [], c1)
          else some ({ result.val with approximate := true },
            [result.id], c1)

/-- The `round` value, as a pure function. -/
def roundV (x : Transreal) (k : Nat) : Transreal :=
  truedivV (floorV (mulV x (make (ipow 10 k) 1 false)))
    (make (ipow 10 k) 1 false)


/-! ### Basic reductions of the constants -/

theorem INFINITY_eq : INFINITY = ⟨1, 0, false⟩ := rfl

theorem NULLITY_eq : NULLITY = ⟨0, 0, false⟩ := rfl

theorem zeroT_eq : zeroT = ⟨0, 1, false⟩ := rfl

theorem oneT_eq : oneT = ⟨1, 1, false⟩ := rfl

theorem negOneT_eq : negOneT = ⟨-1, 1, false⟩ := rfl

/-! ### Structure of the normalizing constructor -/

theorem make_canonical (n d : Int) (ap : Bool) : Canonical (make n d ap) := by
  unfold Canonical make
  simp only [mul_neg_one]
  set n' := if d < 0 then -n else n with hn'
  set d' := if d < 0 then -d else d with hd'
  have hd0 : 0 ≤ d' := by simp only [hd']; split <;> omega
  by_cases hg : 1 < ((Int.gcd n' d' : Nat) : Int)
  · simp only [hg, if_true]
    have hgpos : (0 : Int) < ((Int.gcd n' d' : Nat) : Int) := by omega
    have hdvd_d : ((Int.gcd n' d' : Nat) : Int) ∣ d' := Int.gcd_dvd_right
    rw [Int.fdiv_eq_ediv _ (le_of_lt hgpos), Int.fdiv_eq_ediv _ (le_of_lt hgpos)]
    have hddvd : d' / ((Int.gcd n' d' : Nat) : Int) * ((Int.gcd n' d' : Nat) : Int) = d' :=
      Int.ediv_mul_cancel hdvd_d
    refine ⟨Int.ediv_nonneg hd0 (le_of_lt hgpos), ?_, ?_⟩
    · intro _
      exact Int.gcd_div_gcd_div_gcd (by exact_mod_cast hgpos)
    · intro hdz
      rw [hdz, zero_mul] at hddvd
      have hd'z : d' = 0 := hddvd.symm
      have hgn : ((Int.gcd n' d' : Nat) : Int) = (n'.natAbs : Int) := by
        rw [hd'z, Int.gcd_zero_right]
      rw [hgn]
      have hne : n' ≠ 0 := by
        intro h0
        rw [hgn, h0] at hg
        simp at hg
      rcases lt_or_gt_of_ne hne with hlt | hgt
      · left
        have habs : (n'.natAbs : Int) = -n' := by omega
        rw [habs, Int.ediv_neg, Int.ediv_self hne]
      · right; right
        have habs : (n'.natAbs : Int) = n' := by omega
        rw [habs, Int.ediv_self hne]
  · simp only [hg, if_false]
    refine ⟨hd0, ?_, ?_⟩
    · intro hdpos
      have hnz : Int.gcd n' d' ≠ 0 := by
        intro h0
        rw [Int.gcd_eq_zero_iff] at h0
        omega
      omega
    · intro hdz
      rw [hdz, Int.gcd_zero_right] at hg
      omega

/-- The constructor's final `approximate` flag, in terms of its final
denominator: cleared exactly when the result is non-finite. -/
theorem make_approx (n d : Int) (ap : Bool) :
    (make n d ap).approximate =
      if (make n d ap).denominator = 0 then false else ap := rfl

/-- Building `Canonical` for an explicit record. -/
theorem canonical_mk (n d : Int) (ap : Bool) (h1 : 0 ≤ d)
    (h2 : 0 < d → Int.gcd n d = 1)
    (h3 : d = 0 → n = -1 ∨ n = 0 ∨ n = 1) :
    Canonical ⟨n, d, ap⟩ := ⟨h1, h2, h3⟩

/-- Re-running the constructor on canonical fields changes nothing but
possibly the flag (which the constructor clears on denominator 0). -/
theorem make_canonical_fields (v : Transreal) (ap : Bool) (h : Canonical v) :
    make v.numerator v.denominator ap =
      ⟨v.numerator, v.denominator, if v.denominator = 0 then false else ap⟩ := by
  obtain ⟨hd0, hcop, hclamp⟩ := h
  simp only [make]
  have hnotneg : ¬ v.denominator < 0 := by omega
  simp only [hnotneg, if_false]
  rcases eq_or_lt_of_le hd0 with hz | hpos
  · have hd : v.denominator = 0 := hz.symm
    rcases hclamp hd with h1 | h1 | h1 <;>
      simp [hd, h1, Int.gcd_zero_right]
  · have hg : Int.gcd v.numerator v.denominator = 1 := hcop hpos
    have hdz : v.denominator ≠ 0 := by omega
    simp [hg, hdz]

/-- Constructor on a coprime pair with positive denominator: identity. -/
theorem make_coprime (n d : Int) (ap : Bool) (hd : 0 < d)
    (hg : Int.gcd n d = 1) : make n d ap = ⟨n, d, ap⟩ := by
  have hc : Canonical ⟨n, d, ap⟩ :=
    canonical_mk n d ap (by omega) (fun _ => hg) (by omega)
  have h := make_canonical_fields ⟨n, d, ap⟩ ap hc
  simp only at h
  rw [h]
  have hdz : ¬ d = 0 := by omega
  simp [hdz]

/-- Constructor on a coprime pair with negative denominator: negate both. -/
theorem make_coprime_neg (n d : Int) (ap : Bool) (hd : d < 0)
    (hg : Int.gcd n d = 1) : make n d ap = ⟨-n, -d, ap⟩ := by
  simp only [make, mul_neg_one, hd, if_true]
  have hg' : Int.gcd (-n) (-d) = 1 := by
    simpa [Int.gcd, Int.natAbs_neg] using hg
  have hng : ¬ (1 : Int) < ((Int.gcd (-n) (-d) : Nat) : Int) := by
    rw [hg']; simp
  simp only [hng, if_false]
  have hdz : ¬ (-d = 0) := by omega
  simp [hdz]

/-- Constructor with denominator 1: identity. -/
theorem make_int (n : Int) (ap : Bool) : make n 1 ap = ⟨n, 1, ap⟩ :=
  make_coprime n 1 ap one_pos (Int.gcd_one)

/-! ### Claim theorems: the easy concrete ones -/

/-- C10: `NULLITY ** INFINITY` evaluates to `INFINITY`, not `NULLITY`:
in the infinite-exponent branch of `__pow__` a nullity base fails both
`abs(self) < 1` and `abs(self) == 1` (comparisons with nullity are
false), so the `else` arm returns `INFINITY`. -/
theorem c10_nullity_pow_infinity :
    evalF 1 (.pow NULLITY INFINITY) = some INFINITY := by decide

/-- C5: with `PRECISION = 9`, `Transreal(2).root(2)` returns the value
`707106781/500000000` with the approximate flag set, whose string form
is `~707106781/500000000`; and `Transreal(64).root(3)` returns a value
equal to 4 with the approximate flag false. -/
theorem c5_root_scenarios :
    evalF 100 (.root (make 2 1 false) (make 2 1 false)) =
        some ⟨707106781, 500000000, true⟩ ∧
    strV ⟨707106781, 500000000, true⟩ = "~707106781/500000000" ∧
    evalF 200 (.root (make 64 1 false) (make 3 1 false)) =
        some ⟨4, 1, false⟩ ∧
    eqV ⟨4, 1, false⟩ (make 4 1 false) = true := by
  refine ⟨by decide, by decide, by decide, by decide⟩

/-- C7: the code violates the claimed invariant: `Transreal(2).root(0)`
returns the value `(1, 0)` (infinity) with `approximate = true`,
because `root` sets the flag by direct field mutation after the
normalizing constructor (which itself always clears the flag on
denominator 0) has run. -/
theorem c7_root_breaks_flag_invariant :
    evalF 100 (.root (make 2 1 false) (make 0 1 false)) =
      some ⟨1, 0, true⟩ ∧
    (∀ n d : Int, ∀ ap : Bool,
      (make n d ap).denominator = 0 → (make n d ap).approximate = false) := by
  refine ⟨by decide, ?_⟩
  intro n d ap h
  rw [make_approx, h]
  rfl

/-- C1: the constructor always yields canonical form (denominator never
negative, numerator and denominator coprime when the denominator is
positive); `Transreal(1,0) == INFINITY`, `Transreal(0,0) == NULLITY`,
`Transreal(1,-2)` stores `(-1,2)`, `Transreal(5,10)` stores `(1,2)`;
re-constructing from a canonical value's fields gives an equal value. -/
theorem c1_canonical_construction (n d : Int) (ap : Bool) (v : Transreal) :
    Canonical (make n d ap) ∧
    (Canonical v → eqV (make v.numerator v.denominator false) v = true) ∧
    eqV (make 1 0 false) INFINITY = true ∧
    eqV (make 0 0 false) NULLITY = true ∧
    make 1 (-2) false = ⟨-1, 2, false⟩ ∧
    make 5 10 false = ⟨1, 2, false⟩ := by
  refine ⟨make_canonical n d ap, ?_, by decide, by decide, by decide, by decide⟩
  intro hv
  rw [make_canonical_fields v false hv]
  simp [eqV]

/-- Witness for C1 at concrete inputs. -/
theorem c1_witness :
    Canonical (make 5 10 false) ∧ eqV (make 1 2 false) ⟨1, 2, false⟩ = true := by
  have h := c1_canonical_construction 5 10 false ⟨1, 2, false⟩
  exact ⟨h.1, h.2.1 (by decide)⟩

/-! ### Comparison with zero, characterized -/

theorem eqV_eq (a b : Transreal) :
    eqV a b = (decide (a.numerator = b.numerator) &&
      decide (a.denominator = b.denominator)) := rfl

theorem ltV_zero_char (a : Transreal)
    (h : ¬(a.numerator = 0 ∧ a.denominator = 0)) :
    ltV a zeroT = decide (a.numerator < 0) := by
  have h1a : eqV a NULLITY = false := by
    simp only [eqV_eq, NULLITY_eq, Bool.and_eq_false_iff,
      decide_eq_false_iff_not]
    by_cases h2 : a.numerator = 0
    · right; exact fun hd => h ⟨h2, hd⟩
    · left; exact h2
  have h1b : eqV ⟨0, 1, false⟩ NULLITY = false := by decide
  simp only [ltV, zeroT_eq]
  by_cases h2 : a.denominator = 1 <;> simp [h2, h1a, h1b]

theorem gtV_zero_char (a : Transreal)
    (h : ¬(a.numerator = 0 ∧ a.denominator = 0)) :
    gtV a zeroT = decide (0 < a.numerator) := by
  have h1a : eqV a NULLITY = false := by
    simp only [eqV_eq, NULLITY_eq, Bool.and_eq_false_iff,
      decide_eq_false_iff_not]
    by_cases h2 : a.numerator = 0
    · right; exact fun hd => h ⟨h2, hd⟩
    · left; exact h2
  have h1b : eqV ⟨0, 1, false⟩ NULLITY = false := by decide
  simp only [gtV, zeroT_eq]
  by_cases h2 : a.denominator = 1 <;> simp [h2, h1a, h1b]

/-- C2: nullity is excluded from the order (`>` and `<` both return
false whenever either operand is nullity), and every canonical value
satisfies exactly one of `a < 0`, `a == 0`, `a > 0`, `a == NULLITY`
(quadrachotomy; this covers `INFINITY` and `-INFINITY`). -/
theorem c2_quadrachotomy (a b : Transreal) (h : Canonical a) :
    ((eqV a NULLITY || eqV b NULLITY) = true →
      gtV a b = false ∧ ltV a b = false) ∧
    ((ltV a zeroT = true ∧ eqV a zeroT = false ∧ gtV a zeroT = false ∧
        eqV a NULLITY = false) ∨
     (ltV a zeroT = false ∧ eqV a zeroT = true ∧ gtV a zeroT = false ∧
        eqV a NULLITY = false) ∨
     (ltV a zeroT = false ∧ eqV a zeroT = false ∧ gtV a zeroT = true ∧
        eqV a NULLITY = false) ∨
     (ltV a zeroT = false ∧ eqV a zeroT = false ∧ gtV a zeroT = false ∧
        eqV a NULLITY = true)) := by
  constructor
  · intro hnul
    constructor
    · simp only [gtV, hnul, if_true]
    · simp only [ltV, hnul, if_true]
  · have hd0 : (0 : Int) ≤ a.denominator := h.1
    have hcop : 0 < a.denominator → Int.gcd a.numerator a.denominator = 1 :=
      h.2.1
    by_cases hnl : a.numerator = 0 ∧ a.denominator = 0
    · right; right; right
      have he : eqV a NULLITY = true := by
        simp [eqV_eq, NULLITY_eq, hnl.1, hnl.2]
      refine ⟨?_, ?_, ?_, he⟩
      · simp only [ltV, he, Bool.true_or, if_true]
      · simp [eqV_eq, zeroT_eq, hnl.1, hnl.2]
      · simp only [gtV, he, Bool.true_or, if_true]
    · have hlt := ltV_zero_char a hnl
      have hgt := gtV_zero_char a hnl
      have hez : eqV a zeroT =
          (decide (a.numerator = 0) && decide (a.denominator = 1)) := by
        simp [eqV_eq, zeroT_eq]
      have hen : eqV a NULLITY =
          (decide (a.numerator = 0) && decide (a.denominator = 0)) := by
        simp [eqV_eq, NULLITY_eq]
      have hdd1 : a.numerator = 0 → a.denominator = 1 := by
        intro h0
        have hdpos : 0 < a.denominator := by
          rcases eq_or_lt_of_le hd0 with hz | hp
          · exact absurd ⟨h0, hz.symm⟩ hnl
          · exact hp
        have hg := hcop hdpos
        rw [h0] at hg
        simp only [Int.gcd_zero_left] at hg
        omega
      rw [hlt, hgt, hez, hen]
      rcases lt_trichotomy a.numerator 0 with hn | hn | hn
      · left
        simp only [decide_eq_true_eq, decide_eq_false_iff_not,
          Bool.and_eq_false_iff]
        refine ⟨hn, ?_, by omega, ?_⟩ <;>
          · left; omega
      · right; left
        have hd1 := hdd1 hn
        simp only [hn, hd1, decide_eq_true_eq, decide_eq_false_iff_not]
        refine ⟨by omega, by simp, by omega, ?_⟩
        simp
      · right; right; left
        simp only [decide_eq_true_eq, decide_eq_false_iff_not,
          Bool.and_eq_false_iff]
        refine ⟨by omega, ?_, hn, ?_⟩ <;>
          · left; omega

/-- Witness for C2 at `a = INFINITY`, `b = NULLITY`. -/
theorem c2_witness :
    (gtV INFINITY NULLITY = false ∧ ltV INFINITY NULLITY = false) ∧
    (ltV INFINITY zeroT = false ∧ eqV INFINITY zeroT = false ∧
      gtV INFINITY zeroT = true ∧ eqV INFINITY NULLITY = false) := by
  have h := c2_quadrachotomy INFINITY NULLITY (by decide)
  refine ⟨h.1 (by decide), ?_⟩
  rcases h.2 with h2 | h2 | h2 | h2
  · exact absurd h2.1 (by decide)
  · exact absurd h2.2.1 (by decide)
  · exact ⟨h2.1, h2.2.1, h2.2.2.1, h2.2.2.2⟩
  · exact absurd h2.2.2.2 (by decide)

/-! ### The reciprocal (`** -1`) -/

theorem pow_neg_one (f : Nat) (b : Transreal) :
    evalF (f + 1) (.pow b negOneT) = some (recipV b) := rfl

theorem recipV_zero : recipV zeroT = INFINITY := rfl

theorem recipV_infinity : recipV INFINITY = zeroT := rfl

theorem recipV_nullity : recipV NULLITY = NULLITY := rfl

theorem gcd_neg_neg (x y : Int) : Int.gcd (-x) (-y) = Int.gcd x y := by
  simp [Int.gcd, Int.natAbs_neg]

/-- Reciprocal involution on canonical values other than `-INFINITY`. -/
theorem recip_recip (a : Transreal) (h : Canonical a)
    (hne : eqV a (negV INFINITY) = false) :
    eqV (recipV (recipV a)) a = true := by
  have hneginf : negV INFINITY = ⟨-1, 0, false⟩ := rfl
  rw [hneginf] at hne
  obtain ⟨hd0, hcop, hclamp⟩ := h
  rcases eq_or_lt_of_le hd0 with hz | hpos
  · have hd : a.denominator = 0 := hz.symm
    rcases hclamp hd with h1 | h1 | h1
    · exfalso
      rw [eqV_eq] at hne
      simp [h1, hd] at hne
    · have e1 : recipV a = ⟨0, 0, false⟩ := by
        unfold recipV
        rw [hd, h1]
        simp [make]
      rw [e1]
      have e2 : recipV ⟨0, 0, false⟩ = ⟨0, 0, false⟩ := rfl
      rw [e2, eqV_eq]
      simp [h1, hd]
    · have e1 : recipV a = ⟨0, 1, a.approximate⟩ := by
        unfold recipV
        rw [hd, h1]
        exact make_coprime 0 1 a.approximate one_pos (by decide)
      rw [e1]
      have e2 : recipV ⟨0, 1, a.approximate⟩ = ⟨1, 0, false⟩ := by
        unfold recipV
        exact make_canonical_fields ⟨1, 0, a.approximate⟩ a.approximate
          (canonical_mk 1 0 a.approximate (by omega) (by omega) (by omega))
      rw [e2, eqV_eq]
      simp [h1, hd]
  · have hg := hcop hpos
    have hgswap : Int.gcd a.denominator a.numerator = 1 := by
      rw [Int.gcd_comm]; exact hg
    rcases lt_trichotomy a.numerator 0 with hn | hn | hn
    · have e1 : recipV a =
          ⟨-a.denominator, -a.numerator, a.approximate⟩ :=
        make_coprime_neg a.denominator a.numerator a.approximate hn hgswap
      rw [e1]
      have e2 : recipV ⟨-a.denominator, -a.numerator, a.approximate⟩ =
          ⟨a.numerator, a.denominator, a.approximate⟩ := by
        unfold recipV
        have := make_coprime_neg (-a.numerator) (-a.denominator)
          a.approximate (by omega) (by rw [gcd_neg_neg]; exact hg)
        simpa using this
      rw [e2, eqV_eq]
      simp
    · have hd1 : a.denominator = 1 := by
        rw [hn] at hg
        simp only [Int.gcd_zero_left] at hg
        omega
      have e1 : recipV a = ⟨1, 0, false⟩ := by
        unfold recipV
        rw [hd1, hn]
        simp [make]
      rw [e1]
      have e2 : recipV ⟨1, 0, false⟩ = ⟨0, 1, false⟩ := rfl
      rw [e2, eqV_eq]
      simp [hn, hd1]
    · have e1 : recipV a = ⟨a.denominator, a.numerator, a.approximate⟩ :=
        make_coprime a.denominator a.numerator a.approximate hn hgswap
      rw [e1]
      have e2 : recipV ⟨a.denominator, a.numerator, a.approximate⟩ =
          ⟨a.numerator, a.denominator, a.approximate⟩ := by
        unfold recipV
        exact make_coprime a.numerator a.denominator a.approximate hpos hg
      rw [e2, eqV_eq]
      simp

/-- C3: `b ** -1` maps zero to `INFINITY`, `INFINITY` to zero and
`NULLITY` to `NULLITY`; `a / b` is computed as `a * (b ** -1)`; and
`(a ** -1) ** -1 == a` for every canonical value except `-INFINITY`. -/
theorem c3_reciprocal_division (a b : Transreal) (f : Nat)
    (ha : Canonical a) (hne : eqV a (negV INFINITY) = false) :
    evalF (f + 1) (.pow zeroT negOneT) = some INFINITY ∧
    evalF (f + 1) (.pow INFINITY negOneT) = some zeroT ∧
    evalF (f + 1) (.pow NULLITY negOneT) = some NULLITY ∧
    evalF (f + 2) (.truediv a b) = some (mulV a (recipV b)) ∧
    evalF (f + 1) (.pow b negOneT) = some (recipV b) ∧
    eqV (recipV (recipV a)) a = true := by
  refine ⟨pow_neg_one f zeroT, pow_neg_one f INFINITY, pow_neg_one f NULLITY,
    ?_, pow_neg_one f b, recip_recip a ha hne⟩
  have hunf : evalF (f + 2) (.truediv a b) =
      (evalF (f + 1) (.pow b negOneT)).bind (fun r => some (mulV a r)) := rfl
  rw [hunf, pow_neg_one]
  rfl

/-- Witness for C3 at `a = Transreal(2,3)`, `b = Transreal(5)`. -/
theorem c3_witness :
    evalF 3 (.truediv ⟨2, 3, false⟩ ⟨5, 1, false⟩) =
      some (mulV ⟨2, 3, false⟩ (recipV ⟨5, 1, false⟩)) ∧
    eqV (recipV (recipV ⟨2, 3, false⟩)) ⟨2, 3, false⟩ = true := by
  have h := c3_reciprocal_division ⟨2, 3, false⟩ ⟨5, 1, false⟩ 1
    (by decide) (by decide)
  exact ⟨h.2.2.2.1, h.2.2.2.2.2⟩

/-! ### Normalization preserves the represented fraction -/

theorem make_num_den_cross (n d : Int) (ap : Bool) (hd : 0 < d) :
    0 < (make n d ap).denominator ∧
    n * (make n d ap).denominator = (make n d ap).numerator * d := by
  simp only [make]
  have hdneg : ¬ d < 0 := by omega
  simp only [hdneg, if_false]
  by_cases hg : 1 < ((Int.gcd n d : Nat) : Int)
  · simp only [hg, if_true]
    have hgpos : (0 : Int) < ((Int.gcd n d : Nat) : Int) := by omega
    have hdvd_n : ((Int.gcd n d : Nat) : Int) ∣ n := Int.gcd_dvd_left
    have hdvd_d : ((Int.gcd n d : Nat) : Int) ∣ d := Int.gcd_dvd_right
    rw [Int.fdiv_eq_ediv _ (le_of_lt hgpos), Int.fdiv_eq_ediv _ (le_of_lt hgpos)]
    have hn' : n / ((Int.gcd n d : Nat) : Int) * ((Int.gcd n d : Nat) : Int) = n :=
      Int.ediv_mul_cancel hdvd_n
    have hd' : d / ((Int.gcd n d : Nat) : Int) * ((Int.gcd n d : Nat) : Int) = d :=
      Int.ediv_mul_cancel hdvd_d
    constructor
    · rcases le_or_lt (d / ((Int.gcd n d : Nat) : Int)) 0 with hle | hlt
      · exfalso
        have hmul : d / ((Int.gcd n d : Nat) : Int) *
            ((Int.gcd n d : Nat) : Int) ≤ 0 :=
          mul_nonpos_iff.mpr (Or.inr ⟨hle, le_of_lt hgpos⟩)
        omega
      · exact hlt
    · have key : (n * (d / ((Int.gcd n d : Nat) : Int))) *
          ((Int.gcd n d : Nat) : Int) =
          ((n / ((Int.gcd n d : Nat) : Int)) * d) *
          ((Int.gcd n d : Nat) : Int) := by
        calc (n * (d / ((Int.gcd n d : Nat) : Int))) *
              ((Int.gcd n d : Nat) : Int)
            = n * ((d / ((Int.gcd n d : Nat) : Int)) *
              ((Int.gcd n d : Nat) : Int)) := by ring
          _ = n * d := by rw [hd']
          _ = (n / ((Int.gcd n d : Nat) : Int)) *
              ((Int.gcd n d : Nat) : Int) * d := by rw [hn']
          _ = ((n / ((Int.gcd n d : Nat) : Int)) * d) *
              ((Int.gcd n d : Nat) : Int) := by ring
      exact mul_right_cancel₀ (by omega) key
  · simp only [hg, if_false]
    exact ⟨hd, by trivial⟩

/-- Two canonical finite values representing the same fraction are
field-wise identical. -/
theorem canonical_cross_unique (r1 r2 : Transreal)
    (h1 : Canonical r1) (h2 : Canonical r2)
    (hp1 : 0 < r1.denominator) (hp2 : 0 < r2.denominator)
    (hc : r1.numerator * r2.denominator = r2.numerator * r1.denominator) :
    r1.numerator = r2.numerator ∧ r1.denominator = r2.denominator := by
  have hcop1 : IsCoprime r1.numerator r1.denominator :=
    Int.isCoprime_iff_gcd_eq_one.mpr (h1.2.1 hp1)
  have hcop2 : IsCoprime r2.numerator r2.denominator :=
    Int.isCoprime_iff_gcd_eq_one.mpr (h2.2.1 hp2)
  have hdvd12 : r1.denominator ∣ r2.denominator := by
    have hdvd : r1.denominator ∣ r1.numerator * r2.denominator :=
      ⟨r2.numerator, by rw [hc]; ring⟩
    exact hcop1.symm.dvd_of_dvd_mul_left hdvd
  have hdvd21 : r2.denominator ∣ r1.denominator := by
    have hdvd : r2.denominator ∣ r2.numerator * r1.denominator :=
      ⟨r1.numerator, by rw [← hc]; ring⟩
    exact hcop2.symm.dvd_of_dvd_mul_left hdvd
  have hden : r1.denominator = r2.denominator :=
    Int.dvd_antisymm (le_of_lt hp1) (le_of_lt hp2) hdvd12 hdvd21
  refine ⟨?_, hden⟩
  rw [hden] at hc
  exact mul_right_cancel₀ (by omega) hc

/-- Two constructor calls on cross-equal finite fractions give values
equal under `==`. -/
theorem make_eqV_cross (n1 d1 n2 d2 : Int) (a1 a2 : Bool)
    (h1 : 0 < d1) (h2 : 0 < d2) (hc : n1 * d2 = n2 * d1) :
    eqV (make n1 d1 a1) (make n2 d2 a2) = true := by
  obtain ⟨hp1, hx1⟩ := make_num_den_cross n1 d1 a1 h1
  obtain ⟨hp2, hx2⟩ := make_num_den_cross n2 d2 a2 h2
  have hcross : (make n1 d1 a1).numerator * (make n2 d2 a2).denominator =
      (make n2 d2 a2).numerator * (make n1 d1 a1).denominator := by
    have key : ((make n1 d1 a1).numerator * (make n2 d2 a2).denominator) *
        (d1 * d2) =
        ((make n2 d2 a2).numerator * (make n1 d1 a1).denominator) *
        (d1 * d2) := by
      linear_combination
        (-((make n2 d2 a2).denominator * d2)) * hx1 +
        ((make n1 d1 a1).denominator * d1) * hx2 +
        ((make n1 d1 a1).denominator * (make n2 d2 a2).denominator) * hc
    exact mul_right_cancel₀ (by positivity) key
  obtain ⟨hnum, hden⟩ := canonical_cross_unique (make n1 d1 a1)
    (make n2 d2 a2) (make_canonical n1 d1 a1) (make_canonical n2 d2 a2)
    hp1 hp2 hcross
  simp [eqV_eq, hnum, hden]

/-- C6 counterexample: `INFINITY + INFINITY` is `INFINITY` via the
same-denominator fast path, while the claimed cross-multiplied formula
yields `NULLITY`; and `INFINITY + PI` has a false approximate flag
although the OR of the operand flags is true. -/
theorem c6_counterexample :
    eqV (addV INFINITY INFINITY)
      (make (INFINITY.numerator * INFINITY.denominator +
          INFINITY.numerator * INFINITY.denominator)
        (INFINITY.denominator * INFINITY.denominator)
        (INFINITY.approximate || INFINITY.approximate)) = false ∧
    (addV INFINITY piT).approximate = false ∧
    (INFINITY.approximate || piT.approximate) = true := by
  refine ⟨by decide, by decide, by decide⟩

/-- C6 amended: nullity absorbs addition; for two finite operands the
result equals (under `==`) the cross-multiplied sum with the OR of the
flags; and the result's approximate flag is the OR of the operand flags
whenever the result is finite (the constructor clears it on non-finite
results, and two like infinities add by numerator, not by the cross
formula). -/
theorem c6_addition_amended (a b : Transreal) :
    ((eqV a NULLITY || eqV b NULLITY) = true → addV a b = NULLITY) ∧
    (0 < a.denominator → 0 < b.denominator →
      eqV (addV a b)
        (make (a.numerator * b.denominator + b.numerator * a.denominator)
          (a.denominator * b.denominator)
          (a.approximate || b.approximate)) = true) ∧
    (0 < (addV a b).denominator →
      (addV a b).approximate = (a.approximate || b.approximate)) := by
  refine ⟨?_, ?_, ?_⟩
  · intro h
    simp only [addV, h, if_true]
  · intro hda hdb
    have hnl : (eqV a NULLITY || eqV b NULLITY) = false := by
      simp only [eqV_eq, NULLITY_eq, Bool.or_eq_false_iff,
        Bool.and_eq_false_iff, decide_eq_false_iff_not]
      constructor
      · right; omega
      · right; omega
    by_cases hdd : a.denominator = b.denominator
    · have : addV a b = make (a.numerator + b.numerator) a.denominator
          (a.approximate || b.approximate) := by
        simp [addV, hnl, hdd]
      rw [this]
      apply make_eqV_cross _ _ _ _ _ _ hda (by positivity)
      rw [← hdd]
      ring
    · have : addV a b = make
          (a.numerator * b.denominator + b.numerator * a.denominator)
          (a.denominator * b.denominator)
          (a.approximate || b.approximate) := by
        simp only [addV, hnl, Bool.false_eq_true, if_false]
        have : (a.denominator == b.denominator) = false := by
          simp [hdd]
        simp [this]
      rw [this]
      apply make_eqV_cross _ _ _ _ _ _ (by positivity) (by positivity)
      ring
  · intro hpos
    by_cases hnl : (eqV a NULLITY || eqV b NULLITY) = true
    · exfalso
      have he : addV a b = NULLITY := by simp [addV, hnl]
      rw [he, NULLITY_eq] at hpos
      exact absurd hpos (by decide)
    · have hnl' : (eqV a NULLITY || eqV b NULLITY) = false := by
        simp only [Bool.not_eq_true] at hnl
        exact hnl
      by_cases hdd : (a.denominator == b.denominator) = true
      · have he : addV a b = make (a.numerator + b.numerator) a.denominator
            (a.approximate || b.approximate) := by
          simp [addV, hnl', hdd]
        rw [he] at hpos ⊢
        rw [make_approx]
        simp only [show ¬ (make (a.numerator + b.numerator) a.denominator
          (a.approximate || b.approximate)).denominator = 0 from by omega,
          if_false]
      · have hdd' : (a.denominator == b.denominator) = false := by
          simp only [Bool.not_eq_true] at hdd
          exact hdd
        have he : addV a b = make
            (a.numerator * b.denominator + b.numerator * a.denominator)
            (a.denominator * b.denominator)
            (a.approximate || b.approximate) := by
          simp [addV, hnl', hdd']
        rw [he] at hpos ⊢
        rw [make_approx]
        simp only [show ¬ (make
          (a.numerator * b.denominator + b.numerator * a.denominator)
          (a.denominator * b.denominator)
          (a.approximate || b.approximate)).denominator = 0 from by omega,
          if_false]

/-- Witness for C6 at `a = Transreal(1,2)` (exact),
`b = Transreal(1,3)` (approximate). -/
theorem c6_witness :
    eqV (addV ⟨1, 2, false⟩ ⟨1, 3, true⟩)
      (make (1 * 3 + 1 * 2) (2 * 3) (false || true)) = true ∧
    (addV ⟨1, 2, false⟩ ⟨1, 3, true⟩).approximate = (false || true) := by
  have h := c6_addition_amended ⟨1, 2, false⟩ ⟨1, 3, true⟩
  refine ⟨h.2.1 (by decide) (by decide), h.2.2 (by decide)⟩

/-- C8 counterexample: `Transreal(5, Transreal(1))` — both arguments of
allowed types — raises `AttributeError` (the `denominator == 1` branch
reads `.numerator`/`.approximate` off the non-transreal numerator), and
`Transreal(1, 2.0)` — a float denominator, allowed by the claim —
raises the `TypeError` reserved for invalid operands. -/
theorem c8_counterexample :
    initF (.vint 5) (.vtr ⟨1, 1, false⟩) false = .error .attributeError ∧
    initF (.vint 1) (.vfloat (.fin 2 1)) false = .error .typeError :=
  ⟨rfl, rfl⟩

/-- C8 amended: construction succeeds for integer pairs, for
non-NaN-float or transreal numerators with integer denominator, for a
transreal numerator with int, non-NaN-float or transreal denominator,
and for an int numerator with a transreal denominator not equal to 1;
a float or non-numeric denominator without a transreal argument, and a
non-numeric numerator with integer denominator, raise exactly
`InvalidOperand` (`TypeError`); but a NaN raises `ValueError` and a
non-transreal numerator with a transreal denominator equal to 1 raises
`AttributeError`, so `InvalidOperand` is not the only failure kind. -/
theorem c8_construction_amended :
    (∀ (i j : Int) (ap : Bool), isOkB (initF (.vint i) (.vint j) ap) = true) ∧
    (∀ (n d i : Int) (ap : Bool),
      isOkB (initF (.vfloat (.fin n d)) (.vint i) ap) = true ∧
      isOkB (initF (.vfloat .inf) (.vint i) ap) = true ∧
      isOkB (initF (.vfloat .ninf) (.vint i) ap) = true ∧
      initF (.vfloat .nan) (.vint i) ap = .error .valueError) ∧
    (∀ (t : Transreal) (j n d : Int) (u : Transreal) (ap : Bool),
      isOkB (initF (.vtr t) (.vint j) ap) = true ∧
      isOkB (initF (.vtr t) (.vfloat (.fin n d)) ap) = true ∧
      isOkB (initF (.vtr t) (.vfloat .inf) ap) = true ∧
      isOkB (initF (.vtr t) (.vfloat .ninf) ap) = true ∧
      isOkB (initF (.vtr t) (.vtr u) ap) = true ∧
      initF (.vtr t) (.vfloat .nan) ap = .error .valueError) ∧
    (∀ (i : Int) (t : Transreal) (ap : Bool), pyEqOne (.vtr t) = false →
      isOkB (initF (.vint i) (.vtr t) ap) = true) ∧
    (∀ (num : PyVal) (t : Transreal) (ap : Bool),
      pyEqOne (.vtr t) = true → isTrB num = false →
      initF num (.vtr t) ap = .error .attributeError) ∧
    (∀ (x : PyFloat) (i : Int) (ap : Bool),
      initF (.vint i) (.vfloat x) ap = .error .typeError ∧
      initF .vstr (.vint i) ap = .error .typeError) := by
  refine ⟨?_, ?_, ?_, ?_, ?_, ?_⟩
  · intro i j ap
    simp [initF, isTrB, isOkB]
  · intro n d i ap
    refine ⟨by simp [initF, isTrB, isOkB], by simp [initF, isTrB, isOkB],
      by simp [initF, isTrB, isOkB], by simp [initF, isTrB]⟩
  · intro t j n d u ap
    refine ⟨?_, ?_, ?_, ?_, ?_, ?_⟩
    · by_cases hq : pyEqOne (.vint j) = true <;>
        simp [initF, isTrB, hq, pydivV, coerceV, isOkB]
    · by_cases hq : pyEqOne (.vfloat (.fin n d)) = true <;>
        simp [initF, isTrB, hq, pydivV, coerceV, isOkB]
    · simp [initF, isTrB, pyEqOne, pydivV, coerceV, isOkB]
    · simp [initF, isTrB, pyEqOne, pydivV, coerceV, isOkB]
    · by_cases hq : pyEqOne (.vtr u) = true <;>
        simp [initF, isTrB, hq, pydivV, coerceV, isOkB]
    · simp [initF, isTrB, pyEqOne, pydivV, coerceV]
  · intro i t ap hq
    simp [initF, isTrB, hq, pydivV, coerceV, isOkB]
  · intro num t ap hq hnum
    match num with
    | .vint i => simp [initF, isTrB, hq]
    | .vfloat x => simp [initF, isTrB, hq]
    | .vstr => simp [initF, isTrB, hq]
    | .vtr u => exact absurd hnum (by simp [isTrB])
  · intro x i ap
    refine ⟨by simp [initF, isTrB], by simp [initF, isTrB]⟩

/-- Witness for C8 at concrete arguments. -/
theorem c8_witness :
    isOkB (initF (.vint 3) (.vint 4) false) = true ∧
    isOkB (initF (.vint 7) (.vtr ⟨2, 1, false⟩) false) = true ∧
    initF .vstr (.vtr ⟨1, 1, false⟩) false = .error .attributeError := by
  have h := c8_construction_amended
  exact ⟨h.1 3 4 false, h.2.2.2.1 7 ⟨2, 1, false⟩ false (by decide),
    h.2.2.2.2.1 .vstr ⟨1, 1, false⟩ false (by decide) (by decide)⟩

/-- C9 amended: `root` (the only operation containing a field
assignment outside the constructor) never mutates its operands — every
mutated object identity is at least the allocation counter, hence
distinct from both operands' identities; `+a` (and similar
identity-returning branches) show that not every result is a newly
constructed value. -/
theorem c9_no_operand_mutation (f : Nat) (s p : TObj) (c : Nat)
    (v : Transreal) (log : List Nat) (c1 : Nat)
    (hs : s.id < c) (hp : p.id < c)
    (h : rootT f s p c = some (v, log, c1)) :
    ∀ w ∈ log, s.id ≠ w ∧ p.id ≠ w := by
  unfold rootT at h
  by_cases h1 : ltV s.val zeroT = true
  · rw [if_pos h1] at h
    simp only [Option.some.injEq, Prod.mk.injEq] at h
    obtain ⟨hv, hl, hc⟩ := h
    subst hl
    intro w hw
    simp at hw
  · rw [if_neg h1] at h
    by_cases h2 : (eqV s.val NULLITY || eqV p.val NULLITY) = true
    · rw [if_pos h2] at h
      simp only [Option.some.injEq, Prod.mk.injEq] at h
      obtain ⟨hv, hl, hc⟩ := h
      subst hl
      intro w hw
      simp at hw
    · rw [if_neg h2] at h
      by_cases h3 : eqV s.val INFINITY = true
      · rw [if_pos h3] at h
        simp only [Option.some.injEq, Prod.mk.injEq] at h
        obtain ⟨hv, hl, hc⟩ := h
        subst hl
        intro w hw
        simp at hw
      · rw [if_neg h3] at h
        by_cases h4 : eqV (absV p.val) INFINITY = true
        · rw [if_pos h4] at h
          simp only [Option.some.injEq, Prod.mk.injEq] at h
          obtain ⟨hv, hl, hc⟩ := h
          subst hl
          intro w hw
          simp at hw
        · rw [if_neg h4] at h
          cases hgF : evalF f
              (.loopG s.val p.val (make 0 1 false) (make 1 1 false)) with
          | none => rw [hgF] at h; simp at h
          | some gF =>
            rw [hgF] at h
            dsimp only at h
            unfold roundT at h
            cases hr : evalF f (.round gF 9) with
            | none => rw [hr] at h; simp at h
            | some rv =>
              rw [hr] at h
              simp only [Option.map_some'] at h
              cases hpw : evalF f (.pow rv p.val) with
              | none =>
                rw [hpw] at h
                simp at h
              | some rp =>
                rw [hpw] at h
                dsimp only at h
                by_cases hb : eqV rp s.val = true
                · rw [if_pos hb] at h
                  simp only [Option.some.injEq, Prod.mk.injEq] at h
                  obtain ⟨hv, hl, hc⟩ := h
                  subst hl
                  intro w hw
                  simp at hw
                · rw [if_neg hb] at h
                  simp only [Option.some.injEq, Prod.mk.injEq] at h
                  obtain ⟨hv, hl, hc⟩ := h
                  subst hl
                  intro w hw
                  simp only [List.mem_singleton] at hw
                  subst hw
                  exact ⟨by omega, by omega⟩

/-- C9 counterexample: the unary `+` operator returns its operand
object itself (`__pos__` is `return self`), so not every operation's
result is a newly constructed value. -/
theorem c9_counterexample :
    posT ⟨⟨3, 1, false⟩, 5⟩ = ⟨⟨3, 1, false⟩, 5⟩ ∧
    (posT ⟨⟨3, 1, false⟩, 5⟩).id = 5 := ⟨rfl, rfl⟩

/-- Witness for C9: `Transreal(2).root(0)` does perform a mutation, and
it targets the freshly allocated result (identity 2), not the operands
(identities 0 and 1). -/
theorem c9_witness : (0 : Nat) ≠ 2 ∧ (1 : Nat) ≠ 2 :=
  c9_no_operand_mutation 100 ⟨⟨2, 1, false⟩, 0⟩ ⟨⟨0, 1, false⟩, 1⟩ 2
    ⟨1, 0, true⟩ [2] 3 (by decide) (by decide) (by decide) 2 (by simp)

/-! ### `root`: pre-iteration special cases and non-termination -/

theorem root_unfold (f : Nat) (s p : Transreal) :
    evalF (f + 1) (.root s p) =
      if ltV s zeroT then some NULLITY
      else if eqV s NULLITY || eqV p NULLITY then some NULLITY
      else if eqV s INFINITY then
        some (if eqV (absV p) INFINITY then NULLITY
              else if ltV p zeroT then negV INFINITY
              else INFINITY)
      else if eqV (absV p) INFINITY then some zeroT
      else evalF f (.loop s p (make 0 1 false) (make 1 1 false)) := rfl

/-- C4 amended: the pre-iteration special cases of `root` hold exactly
as claimed (negative base, nullity base or power, infinite base,
infinite power), and each returns without entering the Newton loop; but
`root` is not total: the Newton loop runs forever on
`Transreal(3).root(-1)` (see the counterexample), so the claim's
"always exits" part fails. -/
theorem c4_root_special_cases (f : Nat) (s p : Transreal) :
    (ltV s zeroT = true → evalF (f + 1) (.root s p) = some NULLITY) ∧
    ((eqV s NULLITY || eqV p NULLITY) = true →
      evalF (f + 1) (.root s p) = some NULLITY) ∧
    (eqV s INFINITY = true → eqV p NULLITY = false →
      evalF (f + 1) (.root s p) =
        some (if eqV (absV p) INFINITY then NULLITY
              else if ltV p zeroT then negV INFINITY
              else INFINITY)) ∧
    (ltV s zeroT = false → eqV s NULLITY = false → eqV p NULLITY = false →
      eqV s INFINITY = false → eqV (absV p) INFINITY = true →
      evalF (f + 1) (.root s p) = some zeroT) := by
  refine ⟨?_, ?_, ?_, ?_⟩
  · intro h
    rw [root_unfold, if_pos h]
  · intro h
    rw [root_unfold]
    by_cases h1 : ltV s zeroT = true
    · rw [if_pos h1]
    · rw [if_neg h1, if_pos h]
  · intro h hn
    have hs : s.numerator = 1 ∧ s.denominator = 0 := by
      simpa [eqV_eq, INFINITY_eq] using h
    have h1 : ¬ ltV s zeroT = true := by
      rw [ltV_zero_char s (by omega)]
      simp
      omega
    have h2 : ¬ (eqV s NULLITY || eqV p NULLITY) = true := by
      simp only [Bool.or_eq_true, not_or]
      constructor
      · simp [eqV_eq, NULLITY_eq]
        omega
      · simp [hn]
    rw [root_unfold, if_neg h1, if_neg h2, if_pos h]
  · intro h1 h2 h3 h4 h5
    have h1' : ¬ ltV s zeroT = true := by simp [h1]
    have h2' : ¬ (eqV s NULLITY || eqV p NULLITY) = true := by
      simp [h2, h3]
    have h4' : ¬ eqV s INFINITY = true := by simp [h4]
    rw [root_unfold, if_neg h1', if_neg h2', if_neg h4', if_pos h5]

/-- Witness for C4's special cases at concrete inputs. -/
theorem c4_witness :
    evalF 1 (.root ⟨-1, 1, false⟩ ⟨2, 1, false⟩) = some NULLITY ∧
    evalF 1 (.root ⟨0, 0, false⟩ ⟨2, 1, false⟩) = some NULLITY ∧
    evalF 1 (.root ⟨1, 0, false⟩ ⟨-2, 1, false⟩) =
      some (if eqV (absV ⟨-2, 1, false⟩) INFINITY then NULLITY
            else if ltV ⟨-2, 1, false⟩ zeroT then negV INFINITY
            else INFINITY) ∧
    evalF 1 (.root ⟨2, 1, false⟩ ⟨1, 0, false⟩) = some zeroT := by
  have h1 := (c4_root_special_cases 0 ⟨-1, 1, false⟩ ⟨2, 1, false⟩).1
    (by decide)
  have h2 := (c4_root_special_cases 0 ⟨0, 0, false⟩ ⟨2, 1, false⟩).2.1
    (by decide)
  have h3 := (c4_root_special_cases 0 ⟨1, 0, false⟩ ⟨-2, 1, false⟩).2.2.1
    (by decide) (by decide)
  have h4 := (c4_root_special_cases 0 ⟨2, 1, false⟩ ⟨1, 0, false⟩).2.2.2
    (by decide) (by decide) (by decide) (by decide) (by decide)
  exact ⟨h1, h2, h3, h4⟩

/-! ### Fuel-indexed evaluation lemmas -/

theorem loopG_unfold (f : Nat) (s pw pr g : Transreal) :
    evalF (f + 1) (.loopG s pw pr g) =
      if ltV (make 1 (ipow 10 9) false) (absV (subV g pr)) then
        (evalF f (.round g 18)).bind fun prev' =>
        (evalF f (.pow prev' pw)).bind fun pp =>
        (evalF f (.pow prev' (subV pw oneT))).bind fun pm =>
        (evalF f (.truediv (subV pp s) (mulV pw pm))).bind fun q =>
        evalF f (.loopG s pw prev' (subV prev' q))
      else some g := rfl

theorem loop_unfold (f : Nat) (s pw pr g : Transreal) :
    evalF (f + 1) (.loop s pw pr g) =
      (evalF f (.loopG s pw pr g)).bind fun gF =>
      (evalF f (.round gF 9)).bind fun result =>
      (evalF f (.pow result pw)).bind fun rp =>
      if eqV rp s then some result
      else some { result with approximate := true } := rfl

theorem truediv_fuel (f : Nat) (a b : Transreal) :
    evalF f (.truediv a b) = none ∨
    evalF f (.truediv a b) = some (truedivV a b) := by
  match f with
  | 0 => left; rfl
  | 1 => left; rfl
  | f + 2 => right; rfl

theorem round_fuel (f : Nat) (x : Transreal) (k : Nat) :
    evalF f (.round x k) = none ∨
    evalF f (.round x k) = some (roundV x k) := by
  match f with
  | 0 => left; rfl
  | 1 => left; rfl
  | 2 => left; rfl
  | f + 3 => right; rfl

theorem pow_m1_fuel (f : Nat) (x : Transreal) :
    evalF f (.pow x ⟨-1, 1, false⟩) = none ∨
    evalF f (.pow x ⟨-1, 1, false⟩) = some (recipV x) := by
  match f with
  | 0 => left; rfl
  | f + 1 => right; rfl

/-- Constructor on an exact multiple: `make (x*E) E` reduces to `x`. -/
theorem make_mul_cancel (x E : Int) (b : Bool) (hE : 1 < E) :
    make (x * E) E b = ⟨x, 1, b⟩ := by
  have h1 : ¬ E < 0 := by omega
  have hg : Int.gcd (x * E) E = E.natAbs := by
    have h := Int.gcd_mul_right x E 1
    rw [one_mul, Int.gcd_one, one_mul] at h
    exact h
  have hgE : ((Int.gcd (x * E) E : Nat) : Int) = E := by
    rw [hg]; omega
  have hEne : E ≠ 0 := by omega
  have hfd : E.fdiv E = 1 := by
    rw [Int.fdiv_eq_ediv _ (by omega), Int.ediv_self hEne]
  have hfn : (x * E).fdiv E = x := by
    rw [Int.fdiv_eq_ediv _ (by omega), Int.mul_ediv_cancel x hEne]
  simp only [make, h1, if_false, hgE]
  simp only [hE, if_true, hfd, hfn]
  simp

theorem mulV_int (x y : Int) (bx by_ : Bool) :
    mulV ⟨x, 1, bx⟩ ⟨y, 1, by_⟩ = ⟨x * y, 1, bx || by_⟩ := by
  simp only [mulV, mul_one]
  exact make_int _ _

theorem subV_int (x y : Int) (bx by_ : Bool) :
    subV ⟨x, 1, bx⟩ ⟨y, 1, by_⟩ = ⟨x - y, 1, bx || by_⟩ := by
  simp only [subV, negOneT]
  rw [show make (-1) 1 false = ⟨-1, 1, false⟩ from rfl, mulV_int]
  simp only [addV]
  have h1 : (eqV ⟨x, 1, bx⟩ NULLITY || eqV ⟨y * -1, 1, by_ || false⟩ NULLITY)
      = false := by
    simp [eqV_eq, NULLITY_eq]
  rw [h1]
  simp only [Bool.false_eq_true, if_false]
  have h2 : ((⟨x, 1, bx⟩ : Transreal).denominator ==
      (⟨y * -1, 1, by_ || false⟩ : Transreal).denominator) = true := by
    simp
  rw [if_pos h2]
  rw [make_int]
  simp only [Transreal.mk.injEq]
  refine ⟨by ring, trivial, by simp⟩

theorem absV_int_neg (x : Int) (b : Bool) (h : x < 0) :
    absV ⟨x, 1, b⟩ = ⟨-x, 1, b⟩ := by
  unfold absV negV
  rw [if_pos h, show negOneT = ⟨-1, 1, false⟩ from rfl, mulV_int]
  simp only [Transreal.mk.injEq]
  refine ⟨by ring, trivial, by simp⟩

theorem ltV_eps_int (y : Int) (b : Bool) (hy : 1 ≤ y) :
    ltV ⟨1, 1000000000, false⟩ ⟨y, 1, b⟩ = true := by
  simp [ltV, eqV_eq, NULLITY_eq]
  omega

theorem pow_m2_fuel (f : Nat) (k : Int) (b : Bool) (hk : k ≠ 0) :
    evalF f (.pow ⟨k, 1, b⟩ ⟨-2, 1, false⟩) = none ∨
    evalF f (.pow ⟨k, 1, b⟩ ⟨-2, 1, false⟩) = some ⟨1, k * k, b⟩ := by
  match f with
  | 0 => left; rfl
  | f + 1 =>
    right
    have e0 : evalF (f + 1) (.pow ⟨k, 1, b⟩ ⟨-2, 1, false⟩) =
        some (make (ipow (make 1 k b).numerator 2)
          (ipow (make 1 k b).denominator 2)
          ((make 1 k b).approximate || false)) := rfl
    rw [e0]
    have hkk : (0 : Int) < k * k := mul_self_pos.mpr hk
    have hgkk : Int.gcd 1 (k * k) = 1 :=
      Int.gcd_eq_one_iff_coprime.mpr ⟨1, 0, by ring⟩
    rcases lt_or_gt_of_ne hk with hneg | hpos
    · rw [make_coprime_neg 1 k b hneg
        (Int.gcd_eq_one_iff_coprime.mpr ⟨1, 0, by ring⟩)]
      have h1 : ipow (-1 : Int) 2 = 1 := rfl
      have h2 : ipow (-k : Int) 2 = k * k := by
        simp [ipow]
      simp only [h1, h2, Bool.or_false]
      rw [make_coprime 1 (k * k) b hkk hgkk]
    · rw [make_coprime 1 k b hpos
        (Int.gcd_eq_one_iff_coprime.mpr ⟨1, 0, by ring⟩)]
      have h1 : ipow (1 : Int) 2 = 1 := rfl
      have h2 : ipow (k : Int) 2 = k * k := by
        simp [ipow]
      simp only [h1, h2, Bool.or_false]
      rw [make_coprime 1 (k * k) b hkk hgkk]

theorem recip_int_neg (k : Int) (b : Bool) (hk : k < 0) :
    recipV ⟨k, 1, b⟩ = ⟨-1, -k, b⟩ := by
  unfold recipV
  exact make_coprime_neg 1 k b hk
    (Int.gcd_eq_one_iff_coprime.mpr ⟨1, 0, by ring⟩)

theorem num_step (k : Int) (hk : k < -1) :
    subV ⟨-1, -k, false⟩ ⟨3, 1, false⟩ = ⟨3 * k - 1, -k, false⟩ := by
  unfold subV
  rw [show mulV ⟨3, 1, false⟩ negOneT = ⟨-3, 1, false⟩ from rfl]
  simp only [addV]
  have h1 : (eqV ⟨-1, -k, false⟩ NULLITY ||
      eqV ⟨-3, 1, false⟩ NULLITY) = false := by
    simp [eqV_eq, NULLITY_eq]
  rw [h1]
  simp only [Bool.false_eq_true, if_false]
  have h2 : ((⟨-1, -k, false⟩ : Transreal).denominator ==
      (⟨-3, 1, false⟩ : Transreal).denominator) = false := by
    simp
    omega
  rw [h2]
  simp only [Bool.false_eq_true, if_false]
  have h3 : make ((-1) * 1 + (-3) * (-k)) ((-k) * 1) (false || false) =
      make (3 * k - 1) (-k) false := by
    norm_num
    congr 1
    ring
  rw [h3, make_coprime (3 * k - 1) (-k) false (by omega)
    (Int.gcd_eq_one_iff_coprime.mpr ⟨-1, -3, by ring⟩)]

theorem den_step (k : Int) (hk : k ≠ 0) :
    mulV ⟨-1, 1, false⟩ ⟨1, k * k, false⟩ = ⟨-1, k * k, false⟩ := by
  simp only [mulV]
  norm_num
  exact make_coprime (-1) (k * k) false (mul_self_pos.mpr hk)
    (Int.gcd_eq_one_iff_coprime.mpr ⟨-1, 0, by ring⟩)

theorem q_step (k : Int) (hk : k < -1) :
    truedivV ⟨3 * k - 1, -k, false⟩ ⟨-1, k * k, false⟩ =
      ⟨(3 * k - 1) * k, 1, false⟩ := by
  unfold truedivV
  have hrec : recipV ⟨-1, k * k, false⟩ = ⟨-(k * k), 1, false⟩ := by
    unfold recipV
    have := make_coprime_neg (k * k) (-1) false (by omega)
      (Int.gcd_eq_one_iff_coprime.mpr ⟨0, -1, by ring⟩)
    simpa using this
  rw [hrec]
  simp only [mulV]
  norm_num
  have he : -((3 * k - 1) * (k * k)) = ((3 * k - 1) * k) * (-k) := by ring
  rw [he, make_mul_cancel ((3 * k - 1) * k) (-k) false (by omega)]

/-- The Newton loop of `Transreal(3).root(-1)` never terminates: from
any state reachable after the first iteration (an integer guess `k ≤ -1`
strictly below the previous integer guess `p`) the convergence test
keeps failing, the body maps `k` to `2k - 3k^2 ≤ k - 4`, and the loop
recurses forever — `none` at every fuel. -/
theorem loopG3_none : ∀ (f : Nat) (p k : Int) (bp : Bool),
    ((k ≤ -1 ∧ k < p) ∨ (k = 1 ∧ p = 0)) →
    evalF f (.loopG ⟨3, 1, false⟩ ⟨-1, 1, false⟩ ⟨p, 1, bp⟩ ⟨k, 1, false⟩)
      = none := by
  intro f
  induction f with
  | zero => intro p k bp hinv; rfl
  | succ f ih =>
    intro p k bp hinv
    rw [loopG_unfold]
    have heps : make 1 (ipow 10 9) false = ⟨1, 1000000000, false⟩ := by
      decide
    have hsub : subV (⟨k, 1, false⟩ : Transreal) ⟨p, 1, bp⟩ =
        ⟨k - p, 1, bp⟩ := by
      rw [subV_int]
      simp
    have hcond : ltV (make 1 (ipow 10 9) false)
        (absV (subV (⟨k, 1, false⟩ : Transreal) ⟨p, 1, bp⟩)) = true := by
      rw [heps, hsub]
      rcases hinv with ⟨hk, hkp⟩ | ⟨hk, hp⟩
      · rw [absV_int_neg (k - p) bp (by omega)]
        exact ltV_eps_int (-(k - p)) bp (by omega)
      · subst hk; subst hp
        rw [show absV (⟨1 - 0, 1, bp⟩ : Transreal) = ⟨1 - 0, 1, bp⟩ from by
          unfold absV; rw [if_neg (by norm_num)]]
        exact ltV_eps_int (1 - 0) bp (by norm_num)
    rw [if_pos hcond]
    rcases round_fuel f ⟨k, 1, false⟩ 18 with hr | hr
    · rw [hr]; rfl
    · rw [hr]
      have hrv : roundV (⟨k, 1, false⟩ : Transreal) 18 = ⟨k, 1, false⟩ := by
        unfold roundV
        rw [show make (ipow 10 18) 1 false =
          ⟨1000000000000000000, 1, false⟩ from by decide]
        rw [mulV_int]
        rw [show floorV ⟨k * 1000000000000000000, 1, false || false⟩ =
          ⟨k * 1000000000000000000, 1, false || false⟩ from by
            unfold floorV; rw [if_pos (by simp)]]
        unfold truedivV
        rw [show recipV (⟨1000000000000000000, 1, false⟩ : Transreal) =
          ⟨1, 1000000000000000000, false⟩ from by decide]
        simp only [mulV, Bool.or_false, mul_one, one_mul]
        exact make_mul_cancel k 1000000000000000000 false (by norm_num)
      rw [hrv, Option.some_bind]
      rcases pow_m1_fuel f ⟨k, 1, false⟩ with hp1 | hp1
      · rw [hp1]; rfl
      · rw [hp1, Option.some_bind]
        rw [show subV (⟨-1, 1, false⟩ : Transreal) oneT =
          ⟨-2, 1, false⟩ from by decide]
        have hkne : k ≠ 0 := by rcases hinv with ⟨hk, _⟩ | ⟨hk, _⟩ <;> omega
        rcases pow_m2_fuel f k false hkne with hp2 | hp2
        · rw [hp2]; rfl
        · rw [hp2, Option.some_bind]
          rcases hinv with ⟨hk, hkp⟩ | ⟨hk, hp⟩
          · -- k ≤ -1 : the invariant region
            rw [recip_int_neg k false (by omega)]
            rw [den_step k hkne]
            rcases eq_or_lt_of_le hk with hke | hklt
            · -- k = -1 : concrete values
              have hkm : k = -1 := hke
              subst hkm
              rw [show subV (⟨-1, -(-1 : Int), false⟩ : Transreal)
                  ⟨3, 1, false⟩ = ⟨-4, 1, false⟩ from by decide]
              rcases truediv_fuel f ⟨-4, 1, false⟩ ⟨-1, (-1 : Int) * -1,
                  false⟩ with ht | ht
              · rw [ht]; rfl
              · rw [ht, Option.some_bind]
                rw [show truedivV (⟨-4, 1, false⟩ : Transreal)
                  ⟨-1, (-1 : Int) * -1, false⟩ = ⟨4, 1, false⟩ from by
                    decide]
                rw [show subV (⟨(-1 : Int), 1, false⟩ : Transreal)
                  ⟨4, 1, false⟩ = ⟨-5, 1, false⟩ from by decide]
                exact ih (-1) (-5) false (Or.inl ⟨by norm_num, by norm_num⟩)
            · -- k < -1 : symbolic values
              rw [num_step k hklt]
              rcases truediv_fuel f ⟨3 * k - 1, -k, false⟩
                  ⟨-1, k * k, false⟩ with ht | ht
              · rw [ht]; rfl
              · rw [ht, Option.some_bind]
                rw [q_step k hklt]
                rw [subV_int]
                simp only [Bool.or_false]
                apply ih
                left
                have hprod1 : (0 : Int) < (3 * k + 1) * (k - 1) :=
                  mul_pos_of_neg_of_neg (by omega) (by omega)
                have hprod2 : (0 : Int) < (3 * k - 1) * k :=
                  mul_pos_of_neg_of_neg (by omega) (by omega)
                constructor
                · nlinarith
                · nlinarith
          · -- k = 1, p = 0 : the initial state
            subst hk
            rw [show recipV (⟨1, 1, false⟩ : Transreal) =
              ⟨1, 1, false⟩ from by decide]
            rw [show mulV (⟨-1, 1, false⟩ : Transreal)
              ⟨1, (1 : Int) * 1, false⟩ = ⟨-1, 1, false⟩ from by decide]
            rw [show subV (⟨1, 1, false⟩ : Transreal) ⟨3, 1, false⟩ =
              ⟨-2, 1, false⟩ from by decide]
            rcases truediv_fuel f ⟨-2, 1, false⟩ ⟨-1, 1, false⟩ with ht | ht
            · rw [ht]; rfl
            · rw [ht, Option.some_bind]
              rw [show truedivV (⟨-2, 1, false⟩ : Transreal)
                ⟨-1, 1, false⟩ = ⟨2, 1, false⟩ from by decide]
              rw [show subV (⟨(1 : Int), 1, false⟩ : Transreal)
                ⟨2, 1, false⟩ = ⟨-1, 1, false⟩ from by decide]
              exact ih 1 (-1) false (Or.inl ⟨by norm_num, by norm_num⟩)

/-- C4 counterexample: `Transreal(3).root(-1)` never terminates — the
interpreter returns `none` at every fuel, so no amount of fuel makes
the Newton loop exit (the guesses run through 1, -1, -5, -85, ... and
successive guesses always differ by at least 4). -/
theorem c4_counterexample :
    ¬ rootTerminates (make 3 1 false) (make (-1) 1 false) := by
  unfold rootTerminates
  rintro ⟨f, hf⟩
  have hnone : ∀ g, evalF g (.root (make 3 1 false) (make (-1) 1 false))
      = none := by
    intro g
    match g with
    | 0 => rfl
    | g + 1 =>
      rw [show (make 3 1 false : Transreal) = ⟨3, 1, false⟩ from rfl,
        show (make (-1) 1 false : Transreal) = ⟨-1, 1, false⟩ from rfl]
      rw [root_unfold, if_neg (by decide), if_neg (by decide),
        if_neg (by decide), if_neg (by decide)]
      match g with
      | 0 => rfl
      | g + 1 =>
        rw [loop_unfold]
        rw [show (make 0 1 false : Transreal) = ⟨0, 1, false⟩ from rfl,
          show (make 1 1 false : Transreal) = ⟨1, 1, false⟩ from rfl]
        rw [loopG3_none g 0 1 false (Or.inr ⟨rfl, rfl⟩)]
        rfl
  rw [hnone f] at hf
  exact Bool.false_ne_true hf

/-- Witness for C7: the constructor does clear the flag on denominator
0 at a concrete input. -/
theorem c7_witness : (make 1 0 true).approximate = false :=
  (c7_root_breaks_flag_invariant.2) 1 0 true (by decide)
